import Mathlib

/-!
Verification of the DevNum decimal floating-point library (`src/devnum.py`).

The Python source is shallowly embedded below.  Conventions:

* Python unbounded `int` is modelled by `ℤ` (or `ℕ` where the source value is
  provably nonnegative); Python `//` and `%` on integers are floor division and
  floor modulus, i.e. `Int.fdiv` / `Int.fmod`.
* The global power table `P[i] = 10**i` (3000 entries, `MAX_DIGITS = 1000`) is
  modelled by the function `P i = 10 ^ i` together with explicit bound checks at
  the one call site (`_log10`) whose index can leave the table: a Python list
  access `P[r]` with `r ≥ 3000` raises `IndexError`, which the embedding makes
  visible as `Option.none`.  All other table accesses stay in range for the
  library's formats (mantissa digits ≤ 1000), except `mod`, where the index can
  be negative and Python list indexing wraps around; `Pget` models that wrap.
* Python true division `/` on ints produces a `float`.  The dynamic type of an
  intermediate value matters (the source's `pack` calls `int.bit_length()` on
  its mantissa argument, which raises `AttributeError` on a `float`), so values
  flowing out of `unpack` are modelled by `PyVal`, an int-or-float sum type.
  The numeric value carried in the float branch is idealized as the exact
  rational; no claim below depends on binary64 rounding of that value, only on
  its dynamic type and on exactly representable cases.
* Functions that can raise return `Option` (`none` = exception).
* `math.ceil(math.log2 n)` is modelled by `clog2 n`, the exact ceiling
  logarithm (for every shipped format the float computation is exact).
* The cached constants `tau`, `pi`, `e` and the functions `sin`, `toString`,
  `toScientificNotation`, `toInt`, `make`, `fromFloat` and the random samplers
  are not needed by any claim and are not modelled.
-/

namespace DevNum

/-- `MAX_DIGITS = 1_000` from the source. -/
def MAX_DIGITS : ℕ := 1000

/-- Entry `i` of the power table: `P = [10 ** i for i in range(MAX_DIGITS * 3)]`.
The Python list holds exactly `10 ^ i` for `i < 3 * MAX_DIGITS = 3000`. -/
def P (i : ℕ) : ℕ := 10 ^ i

/-- `MIDPOINTS[i] = (P[i] // 2) - 1`, with `MIDPOINTS[0]` overwritten to `1`. -/
def MIDPOINTS (i : ℕ) : ℕ := if i = 0 then 1 else P i / 2 - 1

/-- Python list access `P[i]` allowing the negative indices that occur inside
`mod` (Python wraps: `P[-j]` is `P[3000 - j]`).  Total on `-3000 ≤ i < 3000`;
all `mod` call sites stay in that range for the library's formats. -/
def Pget (i : ℤ) : ℤ := (10 : ℤ) ^ (i % 3000).toNat

/-- Binary search for the bit length: assuming `2 ^ lo ≤ n < 2 ^ (lo + 2 ^ fuel)`,
returns the exact number of binary digits of `n`. -/
def blAux (n : ℕ) : ℕ → ℕ → ℕ
  | 0, lo => lo + 1
  | f + 1, lo => if n < 2 ^ (lo + 2 ^ f) then blAux n f lo else blAux n f (lo + 2 ^ f)

/-- Python `int.bit_length()` (exact for `n < 2 ^ 16383`; all uses below are
guarded so that larger inputs make `_log10` return `none` exactly when the
Python code raises `IndexError`). -/
def bitLen (n : ℕ) : ℕ := if n = 0 then 0 else blAux n 14 0

/-- The fixed-point `log10 2` approximation `(bit_length * 315653) >> 20`
from `_log10`. -/
def rOf (b : ℕ) : ℕ := (b * 315653) >>> 20

/-- `_log10` on a nonnegative int: `r = (n.bit_length() * 315653) >> 20`,
then `r + 1 if n >= P[r] else r`.  The table access `P[r]` raises `IndexError`
when `r ≥ 3000` (mantissas of roughly 3000 decimal digits and beyond), which
is modelled by `none`. -/
def log10N (n : ℕ) : Option ℕ :=
  let r := rOf (bitLen n)
  if r < 3000 then some (if 10 ^ r ≤ n then r + 1 else r) else none

/-- `def _log10(n): n = abs(n); ...` from the source. -/
def _log10 (n : ℤ) : Option ℕ := log10N n.natAbs

/-- A DevNum number: immutable `(mantissa, exponent)` pair.  The format
reference of the Python object is passed separately to each operation. -/
structure Num where
  mantissa : ℤ
  exponent : ℤ
deriving DecidableEq, Repr

/-- `math.ceil(math.log2 n)` for `n ≥ 1` (exact ceiling logarithm). -/
def clog2 (n : ℕ) : ℕ := bitLen (n - 1)

/-- Format metadata computed by `Floating.__init__`. -/
structure Floating where
  DIGITS : ℕ
  EXPONENT_MAX : ℤ
  EXPONENT_MIN : ℤ
  SPECIAL : ℤ
  MANTISSA_MAX : ℕ
  MANTISSA_MIN : ℕ
  MANTISSA_BITS : ℕ
  EXPONENT_BITS : ℕ
  MASK : ℕ
deriving DecidableEq, Repr

/-- `Floating(NAME, Base10(mantissaDigits), Base(exponentBase)(exponentDigits))`:
derivation of all format constants from `__init__`. -/
def Floating.ofSpec (mantissaDigits exponentBase exponentDigits : ℕ) : Floating :=
  let emaxN : ℕ := exponentBase ^ exponentDigits - 1
  { DIGITS := mantissaDigits
    EXPONENT_MAX := (emaxN : ℤ)
    EXPONENT_MIN := -(emaxN : ℤ)
    SPECIAL := -(emaxN : ℤ) - 1
    MANTISSA_MAX := 10 ^ mantissaDigits - 1
    MANTISSA_MIN := 10 ^ (mantissaDigits - 1)
    MANTISSA_BITS := clog2 (10 ^ mantissaDigits - 1)
    EXPONENT_BITS := clog2 emaxN
    MASK := 2 ^ (clog2 (10 ^ mantissaDigits - 1) + clog2 emaxN + 2) - 1 }

/-- `Fd16 = Floating('Fd16', Base10(3), Base2(4))`. -/
def Fd16 : Floating := Floating.ofSpec 3 2 4

/-- `Fd32 = Floating('Fd32', Base10(7), Base2(6))`. -/
def Fd32 : Floating := Floating.ofSpec 7 2 6

/-- `Fd64 = Floating('Fd64', Base10(16), Base2(8))`. -/
def Fd64 : Floating := Floating.ofSpec 16 2 8

/-- `Fd128 = Floating('Fd128', Base10(34), Base2(13))`. -/
def Fd128 : Floating := Floating.ofSpec 34 2 13

/-- `Fn16 = Floating('Fn16', Base10(16), Base10(2))`. -/
def Fn16 : Floating := Floating.ofSpec 16 10 2

/-- `Fn1000 = Floating('Fn1000', Base10(1000), Base10(4))`. -/
def Fn1000 : Floating := Floating.ofSpec 1000 10 4

/-- The six formats shipped by the library. -/
def fmts : List Floating := [Fd16, Fd32, Fd64, Fd128, Fn16, Fn1000]

/-- `self.zero = Num(0, self.SPECIAL, self)`. -/
def Floating.zero (f : Floating) : Num := ⟨0, f.SPECIAL⟩

/-- `self.undefined = Num(-1, self.SPECIAL, self)`. -/
def Floating.undefined (f : Floating) : Num := ⟨-1, f.SPECIAL⟩

/-- `Floating.isNumber`: zero shape or finite canonical shape. -/
def Floating.isNumber (f : Floating) (n : Num) : Bool :=
  (n.exponent == f.SPECIAL && n.mantissa == 0) ||
    (decide (f.MANTISSA_MIN ≤ n.mantissa.natAbs) &&
     decide (n.mantissa.natAbs ≤ f.MANTISSA_MAX) &&
     decide (f.EXPONENT_MIN ≤ n.exponent) &&
     decide (n.exponent ≤ f.EXPONENT_MAX))

/-- `Floating.isInvalid`. -/
def Floating.isInvalid (f : Floating) (n : Num) : Bool := !f.isNumber n

/-- `Floating.isUndefined`. -/
def Floating.isUndefined (f : Floating) (n : Num) : Bool :=
  n.exponent == f.SPECIAL && n.mantissa == -1

/-- `Floating.validate`. -/
def Floating.validate (f : Floating) (n : Num) : Num :=
  if f.isNumber n then n else f.undefined

/-- The finite canonical shape (second disjunct of `isNumber`). -/
def Floating.isFinite (f : Floating) (n : Num) : Bool :=
  decide (f.MANTISSA_MIN ≤ n.mantissa.natAbs) &&
    decide (n.mantissa.natAbs ≤ f.MANTISSA_MAX) &&
    decide (f.EXPONENT_MIN ≤ n.exponent) &&
    decide (n.exponent ≤ f.EXPONENT_MAX)

/-- Lines 101-115 of `pack`: the `INDEX > 0` rounding block, acting on the
magnitude `a = abs(mantissa)`.  Returns the rounded magnitude together with a
flag recording whether the digit-count carry bumped the exponent (the source
mutates `exponent += 1` in place; the caller below adds it back). -/
def Floating.roundMag (f : Floating) (a I : ℕ) : ℕ × Bool :=
  -- truncated, remainder = divmod(abs(mantissa), P[INDEX])
  let truncated := a / P I
  let remainder := a % P I
  let midpoint := MIDPOINTS I + truncated % 2
  let rounded := truncated + (if midpoint ≤ remainder then 1 else 0)
  if f.MANTISSA_MAX < rounded then
    -- rounding carried past the format width: drop one more digit (and
    -- report the carry so that the caller increments the exponent)
    let truncated2 := rounded / 10
    let remainder2 := rounded % 10
    let midpoint2 := 4 + truncated2 % 2
    (truncated2 + (if midpoint2 ≤ remainder2 then 1 else 0), true)
  else (rounded, false)

/-- Lines 98-120 of `pack`: normalization and rounding, producing the final
`(mantissa, exponent)` pair handed to the canonicalization checks.  `none`
models the `IndexError` raised by `_log10` on out-of-table mantissas. -/
def Floating.packNorm (f : Floating) (mantissa exponent expected : ℤ) :
    Option (ℤ × ℤ) :=
  (_log10 mantissa).map fun (M_DIGITS : ℕ) =>
    let INDEX : ℤ := (M_DIGITS : ℤ) - (f.DIGITS : ℤ)
    let p : ℤ × ℤ :=
      if 0 < INDEX then
        let mb := f.roundMag mantissa.natAbs INDEX.toNat
        ((if 0 ≤ mantissa then (mb.1 : ℤ) else -(mb.1 : ℤ)),
          exponent + (if mb.2 then 1 else 0))
      else
        (mantissa * (P (-INDEX).toNat : ℤ), exponent)
    (p.1, p.2 + ((M_DIGITS : ℤ) - expected))

/-- Lines 122-125 of `pack`: the zero / overflow / underflow checks on the
normalized pair. -/
def Floating.canonicalize (f : Floating) (mantissa exponent : ℤ) : Num :=
  if mantissa = 0 then f.zero
  else if f.EXPONENT_MAX < exponent then f.undefined
  else if exponent < f.EXPONENT_MIN then f.zero
  else ⟨mantissa, exponent⟩

/-- `Floating.pack(mantissa, exponent, expected)`. -/
def Floating.pack (f : Floating) (mantissa exponent expected : ℤ) : Option Num :=
  (f.packNorm mantissa exponent expected).map fun p => f.canonicalize p.1 p.2

/-- A Python value that is either an `int` or a `float`; `unpack` produces one
or the other depending on the branch taken. -/
inductive PyVal where
  | vint (z : ℤ)
  | vfloat (q : ℚ)
deriving DecidableEq, Repr

/-- Python `+` on `unpack` results: `int + int` stays `int`, any `float`
operand makes the result a `float`. -/
def PyVal.add : PyVal → PyVal → PyVal
  | .vint a, .vint b => .vint (a + b)
  | .vint a, .vfloat b => .vfloat ((a : ℚ) + b)
  | .vfloat a, .vint b => .vfloat (a + (b : ℚ))
  | .vfloat a, .vfloat b => .vfloat (a + b)

/-- Python `-` on `unpack` results, same typing rule as `PyVal.add`. -/
def PyVal.sub : PyVal → PyVal → PyVal
  | .vint a, .vint b => .vint (a - b)
  | .vint a, .vfloat b => .vfloat ((a : ℚ) - b)
  | .vfloat a, .vint b => .vfloat (a - (b : ℚ))
  | .vfloat a, .vfloat b => .vfloat (a - b)

/-- `Floating.unpack(number, exponent)`.  On the nonnegative branch the result
is the int `number.mantissa * P[INDEX]` (raising `IndexError`, i.e. `none`,
when `INDEX ≥ 3000`); on the negative branch the source divides with `/`,
Python true division, so the result is a float. -/
def Floating.unpack (f : Floating) (number : Num) (exponent : ℤ) : Option PyVal :=
  let INDEX : ℤ := number.exponent - exponent
  if 0 ≤ INDEX then
    if INDEX < 3000 then some (.vint (number.mantissa * (P INDEX.toNat : ℤ))) else none
  else
    some (.vfloat ((number.mantissa : ℚ) / (10 : ℚ) ^ min (-INDEX).toNat f.DIGITS))

/-- Passing an `unpack` result to `pack`: the first thing `pack` does is
`_log10(mantissa)`, which calls `mantissa.bit_length()`; a Python float has no
`bit_length` attribute, so a float mantissa raises `AttributeError` (`none`). -/
def Floating.packVal (f : Floating) (v : PyVal) (exponent expected : ℤ) : Option Num :=
  match v with
  | .vint z => f.pack z exponent expected
  | .vfloat _ => none

/-- `Floating.add`. -/
def Floating.add (f : Floating) (x y : Num) : Option Num :=
  if f.isInvalid x || f.isInvalid y then some f.undefined
  else
    let E := max x.exponent y.exponent
    match f.unpack x (E - (f.DIGITS : ℤ)), f.unpack y (E - (f.DIGITS : ℤ)) with
    | some X, some Y => f.packVal (X.add Y) E ((f.DIGITS : ℤ) * 2)
    | _, _ => none

/-- `Floating.sub`. -/
def Floating.sub (f : Floating) (x y : Num) : Option Num :=
  if f.isInvalid x || f.isInvalid y then some f.undefined
  else
    let E := max x.exponent y.exponent
    match f.unpack x (E - (f.DIGITS : ℤ)), f.unpack y (E - (f.DIGITS : ℤ)) with
    | some X, some Y => f.packVal (X.sub Y) E ((f.DIGITS : ℤ) * 2)
    | _, _ => none

/-- `Floating.mul`. -/
def Floating.mul (f : Floating) (x y : Num) : Option Num :=
  if f.isInvalid x || f.isInvalid y then some f.undefined
  else f.pack (x.mantissa * y.mantissa) (x.exponent + y.exponent) ((f.DIGITS : ℤ) * 2 - 1)

/-- `Floating.div` (`EXTRA_DIGITS = 1`; Python `//` is floor division). -/
def Floating.div (f : Floating) (x y : Num) : Option Num :=
  if f.isInvalid x || f.isInvalid y || y.mantissa == 0 then some f.undefined
  else
    f.pack ((x.mantissa * (P (f.DIGITS + 1) : ℤ)).fdiv (y.mantissa * (P 1 : ℤ)))
      (x.exponent - y.exponent) ((f.DIGITS : ℤ) + 1)

/-- `Floating.mod`.  The table index `DIGITS - D` can be negative (Python list
indexing then wraps), hence `Pget`. -/
def Floating.mod (f : Floating) (x y : Num) : Option Num :=
  if f.isInvalid x || f.isInvalid y || y.mantissa == 0 then some f.undefined
  else if x.exponent < y.exponent then some x
  else
    let D := min (x.exponent - y.exponent) 15
    let xm := x.mantissa * Pget (f.DIGITS : ℤ)
    let ym := y.mantissa * Pget ((f.DIGITS : ℤ) - D)
    let rm1 := xm.fdiv ym
    let rm2 := rm1 * y.mantissa
    let rm3 := x.mantissa * Pget D - rm2
    f.pack rm3 0 (f.DIGITS : ℤ)

/-- `Floating._compact`.  `x.exponent - SPECIAL` is nonnegative for every
canonical value (all comparisons below are applied to canonical values only),
so the Python left shift of that quantity is modelled through `Int.toNat`. -/
def Floating._compact (f : Floating) (x : Num) : ℤ :=
  if x.mantissa < 0 then
    -(((x.mantissa.natAbs ||| ((x.exponent - f.SPECIAL).toNat <<< f.MANTISSA_BITS)) ^^^ f.MASK : ℕ) : ℤ)
  else
    ((x.mantissa.natAbs ||| ((x.exponent - f.SPECIAL).toNat <<< f.MANTISSA_BITS) : ℕ) : ℤ)

/-- `Floating.eq`: direct comparison of the `(mantissa, exponent)` pair. -/
def Floating.eq (f : Floating) (x y : Num) : Bool :=
  x.exponent == y.exponent && x.mantissa == y.mantissa

/-- `Floating.ne`. -/
def Floating.ne (f : Floating) (x y : Num) : Bool :=
  x.exponent != y.exponent || x.mantissa != y.mantissa

/-- `Floating.ge`. -/
def Floating.ge (f : Floating) (x y : Num) : Bool :=
  decide (f._compact y ≤ f._compact x)

/-- `Floating.gt`. -/
def Floating.gt (f : Floating) (x y : Num) : Bool :=
  decide (f._compact y < f._compact x)

/-- `Floating.le`. -/
def Floating.le (f : Floating) (x y : Num) : Bool :=
  decide (f._compact x ≤ f._compact y)

/-- `Floating.lt`. -/
def Floating.lt (f : Floating) (x y : Num) : Bool :=
  decide (f._compact x < f._compact y)

/-- One iteration of the Newton loop in `sqrt`:
`NEXT = (result + (original // result)) // 2`. -/
def nstep (original result : ℕ) : ℕ := (result + original / result) / 2

/-- The `while True` Newton loop of `sqrt`, with explicit fuel: `some result`
when two consecutive iterates coincide within `fuel` iterations, `none` if the
loop is still running after `fuel` iterations. -/
def newtonIter (original : ℕ) : ℕ → ℕ → Option ℕ
  | 0, _ => none
  | fuel + 1, result =>
    let NEXT := nstep original result
    if NEXT == result then some result else newtonIter original fuel NEXT

/-- The radicand fed to the Newton loop by `sqrt` (`EXTRA_DIGITS = 2`;
mantissa is positive in the branch that runs the loop). -/
def Floating.sqrtOriginal (f : Floating) (number : Num) : ℕ :=
  if number.exponent % 2 == 0 then
    number.mantissa.toNat * P (f.DIGITS + 2 * 2 - 1)
  else
    number.mantissa.toNat * P (f.DIGITS + 2 * 2)

/-- The linear seed estimate of `sqrt` (`P[EXTRA_DIGITS - 2] = 1`). -/
def Floating.sqrtSeed (f : Floating) (number : Num) : ℕ :=
  if number.exponent % 2 == 0 then
    (number.mantissa.toNat * 28 + 89 * P (f.DIGITS - 1)) * P (2 - 2)
  else
    (number.mantissa.toNat * 89 + 28 * P f.DIGITS) * P (2 - 2)

/-- The numeric value denoted by a `Num`: `mantissa * 10 ^ exponent` as an
exact rational (exponents may be negative). -/
def numValue (x : Num) : ℚ := (x.mantissa : ℚ) * (10 : ℚ) ^ x.exponent


/-! ### Verified facts about the digit-count estimator -/

set_option exponentiation.threshold 100000
set_option maxRecDepth 10000

/-- Bounded-forall checker with logarithmic recursion depth (binary splitting),
so that large finite checks kernel-evaluate without deep recursion. -/
def ballChk (Q : ℕ → Bool) : ℕ → ℕ → ℕ → Bool
  | 0, _, len => len == 0
  | fuel + 1, lo, len =>
    if len == 0 then true
    else if len == 1 then Q lo
    else ballChk Q fuel lo (len / 2) && ballChk Q fuel (lo + len / 2) (len - len / 2)

theorem ballChk_sound (Q : ℕ → Bool) :
    ∀ fuel lo len, ballChk Q fuel lo len = true → ∀ i, i < len → Q (lo + i) = true := by
  intro fuel
  induction fuel with
  | zero =>
    intro lo len h i hi
    simp only [ballChk, beq_iff_eq] at h
    omega
  | succ fuel ih =>
    intro lo len h i hi
    simp only [ballChk] at h
    by_cases h0 : len = 0
    · omega
    · by_cases h1 : len = 1
      · have hi0 : i = 0 := by omega
        subst hi0 h1
        simpa using h
      · rw [if_neg (by simpa using h0), if_neg (by simpa using h1), Bool.and_eq_true] at h
        by_cases hsplit : i < len / 2
        · exact ih lo (len / 2) h.1 i hsplit
        · have h2 := ih (lo + len / 2) (len - len / 2) h.2 (i - len / 2) (by omega)
          have heq : lo + len / 2 + (i - len / 2) = lo + i := by omega
          rwa [heq] at h2

/-- Per-bit-length check justifying the estimator: with `r = rOf b`, every
`n` of bit length `b` satisfies `n < 10 ^ (r + 1)`, and (when `r ≥ 1`)
`10 ^ (r - 1) ≤ n`. -/
def lbChk (b0 : ℕ) : Bool :=
  let b := b0 + 1
  decide (2 ^ b ≤ 10 ^ (rOf b + 1)) && (rOf b == 0 || decide (10 ^ (rOf b - 1) ≤ 2 ^ (b - 1)))

set_option maxHeartbeats 3000000 in
theorem lbChk_all : ballChk lbChk 20 0 9965 = true := by decide

/-- The startup self-check of `_log10` at every power-of-ten boundary of the
table: `_log10(10^i) = i + 1` and `_log10(10^i - 1) = i`. -/
def estChk (i : ℕ) : Bool :=
  (log10N (P i) == some (i + 1)) && (log10N (P i - 1) == some i)

set_option maxHeartbeats 3000000 in
theorem estChk_all : ballChk estChk 20 0 3000 = true := by decide

theorem blAux_spec :
    ∀ (fuel lo : ℕ) (n : ℕ), 2 ^ lo ≤ n → n < 2 ^ (lo + 2 ^ fuel) →
      2 ^ (blAux n fuel lo - 1) ≤ n ∧ n < 2 ^ blAux n fuel lo ∧ 1 ≤ blAux n fuel lo := by
  intro fuel
  induction fuel with
  | zero =>
    intro lo n h1 h2
    refine ⟨by simpa [blAux] using h1, by simpa [blAux] using h2, by simp [blAux]⟩
  | succ fuel ih =>
    intro lo n h1 h2
    by_cases hc : n < 2 ^ (lo + 2 ^ fuel)
    · simpa [blAux, hc] using ih lo n h1 hc
    · have heq : lo + 2 ^ fuel + 2 ^ fuel = lo + 2 ^ (fuel + 1) := by
        rw [pow_succ]
        omega
      have h2' : n < 2 ^ (lo + 2 ^ fuel + 2 ^ fuel) := by rwa [heq]
      simpa [blAux, hc] using ih (lo + 2 ^ fuel) n (le_of_not_lt hc) h2'

theorem bitLen_spec (n : ℕ) (h1 : 1 ≤ n) (h2 : n < 2 ^ 16384) :
    2 ^ (bitLen n - 1) ≤ n ∧ n < 2 ^ bitLen n ∧ 1 ≤ bitLen n := by
  have hn0 : n ≠ 0 := by omega
  have := blAux_spec 14 0 n (by simpa using h1) (by simpa using h2)
  simpa [bitLen, hn0] using this

/-- Exactness of the digit-count estimator on every input whose bit length
stays within the power table (`n < 2 ^ 9965`): it returns the exact number of
decimal digits. -/
theorem log10N_digits (n : ℕ) (h1 : 1 ≤ n) (h2 : n < 2 ^ 9965) :
    ∃ dg, log10N n = some dg ∧ 1 ≤ dg ∧ 10 ^ (dg - 1) ≤ n ∧ n < 10 ^ dg := by
  obtain ⟨hb1, hb2, hb3⟩ := bitLen_spec n h1
    (lt_trans h2 (Nat.pow_lt_pow_right one_lt_two (by norm_num)))
  set b := bitLen n with hbdef
  have hble : b ≤ 9965 := by
    have : 2 ^ (b - 1) < 2 ^ 9965 := lt_of_le_of_lt hb1 h2
    have := (Nat.pow_lt_pow_iff_right one_lt_two).mp this
    omega
  have hchk := ballChk_sound lbChk 20 0 9965 lbChk_all (b - 1) (by omega)
  have hb' : 0 + (b - 1) + 1 = b := by omega
  rw [lbChk] at hchk
  simp only [hb', Bool.and_eq_true, Bool.or_eq_true, beq_iff_eq, decide_eq_true_eq] at hchk
  obtain ⟨hup, hlow⟩ := hchk
  have hr3000 : rOf b < 3000 := by
    have h20 : rOf b = b * 315653 / 2 ^ 20 := by
      simp [rOf, Nat.shiftRight_eq_div_pow]
    rw [h20]
    have : b * 315653 ≤ 9965 * 315653 := Nat.mul_le_mul_right _ hble
    omega
  by_cases h10 : 10 ^ rOf b ≤ n
  · refine ⟨rOf b + 1, ?_, by omega, by simpa using h10, ?_⟩
    · simp [log10N, hr3000, h10]
    · exact lt_of_lt_of_le hb2 hup
  · have hr1 : 1 ≤ rOf b := by
      by_contra hr0
      have : rOf b = 0 := by omega
      rw [this] at h10
      simp at h10
      omega
    rcases hlow with hlow | hlow
    · omega
    · refine ⟨rOf b, ?_, hr1, le_trans hlow hb1, by omega⟩
      simp [log10N, hr3000, h10]

theorem log10N_zero : log10N 0 = some 0 := by decide

/-- The exact decimal digit count is determined by the two-sided bounds. -/
theorem digits_unique {n dg d : ℕ} (h1 : 10 ^ (dg - 1) ≤ n) (h2 : n < 10 ^ dg)
    (h3 : 10 ^ (d - 1) ≤ n) (h4 : n < 10 ^ d) (h5 : 1 ≤ dg) (h6 : 1 ≤ d) : dg = d := by
  have ha : dg - 1 < d := by
    have : (10 : ℕ) ^ (dg - 1) < 10 ^ d := lt_of_le_of_lt h1 h4
    exact (Nat.pow_lt_pow_iff_right (by norm_num)).mp this
  have hb : d - 1 < dg := by
    have : (10 : ℕ) ^ (d - 1) < 10 ^ dg := lt_of_le_of_lt h3 h2
    exact (Nat.pow_lt_pow_iff_right (by norm_num)).mp this
  omega


set_option exponentiation.threshold 100000
set_option maxRecDepth 10000

/-- `_log10` on a nonzero in-table int returns its exact decimal digit count. -/
theorem _log10_digits (m : ℤ) (hm0 : m ≠ 0) (hm : m.natAbs < 2 ^ 9965) :
    ∃ dg, _log10 m = some dg ∧ 1 ≤ dg ∧
      10 ^ (dg - 1) ≤ m.natAbs ∧ m.natAbs < 10 ^ dg := by
  have h1 : 1 ≤ m.natAbs := by
    have := Int.natAbs_eq_zero.not.mpr hm0
    omega
  exact log10N_digits m.natAbs h1 hm

/-- The rounding block keeps the magnitude inside the canonical mantissa
range: a magnitude with `DIGITS + I` decimal digits rounds to one with
exactly `DIGITS` digits. -/
theorem roundMag_spec (f : Floating) (hmax : f.MANTISSA_MAX = 10 ^ f.DIGITS - 1)
    (hd : 1 ≤ f.DIGITS) (a I : ℕ) (hI : 1 ≤ I)
    (hlo : 10 ^ (f.DIGITS + I - 1) ≤ a) (hhi : a < 10 ^ (f.DIGITS + I)) :
    10 ^ (f.DIGITS - 1) ≤ (f.roundMag a I).1 ∧ (f.roundMag a I).1 ≤ 10 ^ f.DIGITS - 1 := by
  have hPpos : 0 < P I := Nat.pos_pow_of_pos I (by norm_num)
  have htlo : 10 ^ (f.DIGITS - 1) ≤ a / P I := by
    rw [Nat.le_div_iff_mul_le hPpos]
    calc 10 ^ (f.DIGITS - 1) * P I = 10 ^ (f.DIGITS - 1 + I) := by rw [P, ← pow_add]
    _ = 10 ^ (f.DIGITS + I - 1) := by congr 1; omega
    _ ≤ a := hlo
  have hthi : a / P I < 10 ^ f.DIGITS := by
    rw [Nat.div_lt_iff_lt_mul hPpos]
    calc a < 10 ^ (f.DIGITS + I) := hhi
    _ = 10 ^ f.DIGITS * P I := by rw [P, ← pow_add]
  rw [Floating.roundMag]
  set t := a / P I with htdef
  set r := a % P I with hrdef
  set rnd := t + (if MIDPOINTS I + t % 2 ≤ r then 1 else 0) with hrnddef
  have hrnd_le : rnd ≤ 10 ^ f.DIGITS := by
    have : rnd ≤ t + 1 := by
      rw [hrnddef]
      split <;> omega
    omega
  have hrnd_lo : 10 ^ (f.DIGITS - 1) ≤ rnd := by
    have : t ≤ rnd := by rw [hrnddef]; split <;> omega
    omega
  by_cases hcarry : f.MANTISSA_MAX < rnd
  · -- rounding produced 10^DIGITS; drop one more digit, obtaining 10^(DIGITS-1)
    have hrnd_eq : rnd = 10 ^ f.DIGITS := by
      rw [hmax] at hcarry
      omega
    have h10d : (10 : ℕ) ^ f.DIGITS = 10 ^ (f.DIGITS - 1) * 10 := by
      rw [← pow_succ]
      congr 1
      omega
    have ht2 : rnd / 10 = 10 ^ (f.DIGITS - 1) := by
      rw [hrnd_eq, h10d, Nat.mul_div_cancel _ (by norm_num)]
    have hr2 : rnd % 10 = 0 := by
      rw [hrnd_eq, h10d, Nat.mul_mod_left]
    rw [if_pos hcarry]
    simp only [ht2, hr2]
    rw [if_neg (by omega)]
    have hlt : (10 : ℕ) ^ (f.DIGITS - 1) < 10 ^ f.DIGITS :=
      Nat.pow_lt_pow_right (by norm_num) (by omega)
    exact ⟨le_refl _, by omega⟩
  · rw [if_neg hcarry]
    rw [hmax] at hcarry
    exact ⟨hrnd_lo, by omega⟩

/-- `packNorm` in the rounding case (`_log10` above the format width). -/
theorem packNorm_eq_round (f : Floating) (m e x : ℤ) (dg : ℕ)
    (hlg : _log10 m = some dg) (hgt : f.DIGITS < dg) :
    f.packNorm m e x =
      some ((if 0 ≤ m then ((f.roundMag m.natAbs (dg - f.DIGITS)).1 : ℤ)
             else -((f.roundMag m.natAbs (dg - f.DIGITS)).1 : ℤ)),
        e + (if (f.roundMag m.natAbs (dg - f.DIGITS)).2 then 1 else 0) + ((dg : ℤ) - x)) := by
  have hidx : (0 : ℤ) < (dg : ℤ) - (f.DIGITS : ℤ) := by
    have : (f.DIGITS : ℤ) < (dg : ℤ) := by exact_mod_cast hgt
    omega
  have htn : ((dg : ℤ) - (f.DIGITS : ℤ)).toNat = dg - f.DIGITS := Int.toNat_sub dg f.DIGITS
  rw [Floating.packNorm, hlg, Option.map_some']
  simp only [if_pos hidx, htn]

/-- `packNorm` in the left-padding case (`_log10` at most the format width). -/
theorem packNorm_eq_pad (f : Floating) (m e x : ℤ) (dg : ℕ)
    (hlg : _log10 m = some dg) (hle : dg ≤ f.DIGITS) :
    f.packNorm m e x =
      some (m * ((10 : ℕ) ^ (f.DIGITS - dg) : ℕ), e + ((dg : ℤ) - x)) := by
  have hidx : ¬ ((0 : ℤ) < (dg : ℤ) - (f.DIGITS : ℤ)) := by
    have : (dg : ℤ) ≤ (f.DIGITS : ℤ) := by exact_mod_cast hle
    omega
  have htn : (-((dg : ℤ) - (f.DIGITS : ℤ))).toNat = f.DIGITS - dg := by
    rw [neg_sub]
    exact Int.toNat_sub f.DIGITS dg
  rw [Floating.packNorm, hlg, Option.map_some']
  simp only [if_neg hidx, htn, P]

/-- Core property of the normalization step of `pack`: on every mantissa whose
bit length fits the power table, `packNorm` succeeds, maps zero to zero, and
produces a mantissa magnitude in `[MANTISSA_MIN, MANTISSA_MAX]` otherwise. -/
theorem packNorm_spec (f : Floating) (hmax : f.MANTISSA_MAX = 10 ^ f.DIGITS - 1)
    (hmin : f.MANTISSA_MIN = 10 ^ (f.DIGITS - 1)) (hd : 1 ≤ f.DIGITS)
    (m e x : ℤ) (hm : m.natAbs < 2 ^ 9965) :
    ∃ M E : ℤ, f.packNorm m e x = some (M, E) ∧ (m = 0 → M = 0) ∧
      (m ≠ 0 → f.MANTISSA_MIN ≤ M.natAbs ∧ M.natAbs ≤ f.MANTISSA_MAX) := by
  by_cases hm0 : m = 0
  · subst hm0
    have hlg : _log10 0 = some 0 := log10N_zero
    refine ⟨0, e + ((0 : ℤ) - x), ?_, fun _ => rfl, fun h => absurd rfl h⟩
    rw [packNorm_eq_pad f 0 e x 0 hlg (Nat.zero_le _)]
    simp
  · obtain ⟨dg, hlg, hdg1, hlo, hhi⟩ := _log10_digits m hm0 hm
    by_cases hcase : f.DIGITS < dg
    · have hb := roundMag_spec f hmax hd m.natAbs (dg - f.DIGITS) (by omega)
        (by rw [show f.DIGITS + (dg - f.DIGITS) - 1 = dg - 1 by omega]; exact hlo)
        (by rw [show f.DIGITS + (dg - f.DIGITS) = dg by omega]; exact hhi)
      refine ⟨(if 0 ≤ m then ((f.roundMag m.natAbs (dg - f.DIGITS)).1 : ℤ)
          else -((f.roundMag m.natAbs (dg - f.DIGITS)).1 : ℤ)),
        e + (if (f.roundMag m.natAbs (dg - f.DIGITS)).2 then 1 else 0) + ((dg : ℤ) - x),
        packNorm_eq_round f m e x dg hlg hcase, fun h => absurd h hm0, fun _ => ?_⟩
      have habs : (if 0 ≤ m then ((f.roundMag m.natAbs (dg - f.DIGITS)).1 : ℤ)
          else -((f.roundMag m.natAbs (dg - f.DIGITS)).1 : ℤ)).natAbs =
          (f.roundMag m.natAbs (dg - f.DIGITS)).1 := by
        split <;> simp
      rw [habs, hmax, hmin]
      omega
    · push_neg at hcase
      refine ⟨m * ((10 : ℕ) ^ (f.DIGITS - dg) : ℕ), e + ((dg : ℤ) - x),
        packNorm_eq_pad f m e x dg hlg hcase, fun h => absurd h hm0, fun _ => ?_⟩
      have habs : (m * ((10 : ℕ) ^ (f.DIGITS - dg) : ℕ)).natAbs =
          m.natAbs * 10 ^ (f.DIGITS - dg) := by
        rw [Int.natAbs_mul, Int.natAbs_ofNat]
      rw [habs, hmax, hmin]
      constructor
      · calc 10 ^ (f.DIGITS - 1) = 10 ^ (dg - 1) * 10 ^ (f.DIGITS - dg) := by
              rw [← pow_add]
              congr 1
              omega
        _ ≤ m.natAbs * 10 ^ (f.DIGITS - dg) := Nat.mul_le_mul_right _ hlo
      · have h1 : m.natAbs * 10 ^ (f.DIGITS - dg) ≤ (10 ^ dg - 1) * 10 ^ (f.DIGITS - dg) :=
          Nat.mul_le_mul_right _ (by omega)
        have h2 : (10 ^ dg - 1) * 10 ^ (f.DIGITS - dg) = 10 ^ f.DIGITS - 10 ^ (f.DIGITS - dg) := by
          rw [Nat.sub_mul, one_mul, ← pow_add]
          congr 2
          omega
        have h3 : (1 : ℕ) ≤ 10 ^ (f.DIGITS - dg) := Nat.one_le_pow _ _ (by norm_num)
        omega

/-- The format-constant identities used by the normalization proofs, for each
of the six shipped formats. -/
theorem fmt_facts (f : Floating) (hf : f ∈ fmts) :
    f.MANTISSA_MAX = 10 ^ f.DIGITS - 1 ∧ f.MANTISSA_MIN = 10 ^ (f.DIGITS - 1) ∧
    1 ≤ f.DIGITS ∧ f.DIGITS ≤ 1000 := by
  fin_cases hf <;> exact ⟨by decide, by decide, by decide, by decide⟩

/-- Any canonical mantissa magnitude is far inside the power table. -/
theorem mantissa_small (f : Floating) (hmax : f.MANTISSA_MAX = 10 ^ f.DIGITS - 1)
    (hd2 : f.DIGITS ≤ 1000) (a : ℕ) (ha : a ≤ f.MANTISSA_MAX) : a < 2 ^ 9965 := by
  have h0 : (1 : ℕ) ≤ 10 ^ f.DIGITS := Nat.one_le_pow _ _ (by norm_num)
  have h1 : a < 10 ^ f.DIGITS := by omega
  have h2 : (10 : ℕ) ^ f.DIGITS ≤ 10 ^ 1000 := Nat.pow_le_pow_right (by norm_num) hd2
  have h3 : (10 : ℕ) ^ 1000 < 2 ^ 9965 := by
    calc (10 : ℕ) ^ 1000 < 16 ^ 1000 := Nat.pow_lt_pow_left (by norm_num) (by norm_num)
    _ = 2 ^ 4000 := by rw [show (16 : ℕ) = 2 ^ 4 from rfl, ← pow_mul]
    _ < 2 ^ 9965 := Nat.pow_lt_pow_right (by norm_num) (by norm_num)
  omega

/-- `_log10` of a canonical mantissa is exactly the format's digit count. -/
theorem _log10_canonical (f : Floating) (hmax : f.MANTISSA_MAX = 10 ^ f.DIGITS - 1)
    (hmin : f.MANTISSA_MIN = 10 ^ (f.DIGITS - 1)) (hd : 1 ≤ f.DIGITS) (hd2 : f.DIGITS ≤ 1000)
    (m : ℤ) (h1 : f.MANTISSA_MIN ≤ m.natAbs) (h2 : m.natAbs ≤ f.MANTISSA_MAX) :
    _log10 m = some f.DIGITS := by
  have hm0 : m ≠ 0 := by
    intro h
    rw [h] at h1
    simp only [Int.natAbs_zero, hmin] at h1
    have := Nat.one_le_pow (f.DIGITS - 1) 10 (by norm_num)
    omega
  obtain ⟨dg, hlg, hdg1, hlo, hhi⟩ := _log10_digits m hm0 (mantissa_small f hmax hd2 _ h2)
  have heq : dg = f.DIGITS := by
    refine digits_unique hlo hhi ?_ ?_ hdg1 hd
    · rw [hmin] at h1
      exact h1
    · rw [hmax] at h2
      have := Nat.one_le_pow f.DIGITS 10 (by norm_num)
      omega
  rw [← heq]
  exact hlg

/-- Round trip at the number's own exponent: `pack(unpack(n, n.exponent),
n.exponent, DIGITS)` returns `n` unchanged for finite canonical `n` (the
`unpack` multiply branch is exact and `pack` re-normalizes to the same pair). -/
theorem roundTrip_self (f : Floating) (hmax : f.MANTISSA_MAX = 10 ^ f.DIGITS - 1)
    (hmin : f.MANTISSA_MIN = 10 ^ (f.DIGITS - 1)) (hd : 1 ≤ f.DIGITS) (hd2 : f.DIGITS ≤ 1000)
    (n : Num) (hfin : f.isFinite n = true) :
    (f.unpack n n.exponent).bind (fun v => f.packVal v n.exponent (f.DIGITS : ℤ)) = some n := by
  simp only [Floating.isFinite, Bool.and_eq_true, decide_eq_true_eq] at hfin
  obtain ⟨⟨⟨hm1, hm2⟩, he1⟩, he2⟩ := hfin
  have hunp : f.unpack n n.exponent = some (.vint n.mantissa) := by
    rw [Floating.unpack]
    simp [P]
  rw [hunp, Option.some_bind]
  show f.pack n.mantissa n.exponent (f.DIGITS : ℤ) = some n
  have hlg := _log10_canonical f hmax hmin hd hd2 n.mantissa hm1 hm2
  rw [Floating.pack, packNorm_eq_pad f n.mantissa n.exponent (f.DIGITS : ℤ) f.DIGITS hlg le_rfl]
  rw [Option.map_some']
  have hm0 : n.mantissa ≠ 0 := by
    intro h
    rw [h] at hm1
    simp only [Int.natAbs_zero, hmin] at hm1
    have := Nat.one_le_pow (f.DIGITS - 1) 10 (by norm_num)
    omega
  simp only [Nat.sub_self, pow_zero, Nat.cast_one, mul_one, sub_self, add_zero]
  rw [Floating.canonicalize, if_neg hm0, if_neg (by omega), if_neg (by omega)]



set_option exponentiation.threshold 100000
set_option maxRecDepth 10000

/-! ### Termination of the Newton loop in `sqrt` -/

/-- Integer AM-GM: one Newton step never drops below the integer square root. -/
theorem sqrt_le_nstep (n x : ℕ) (hx : 1 ≤ x) : Nat.sqrt n ≤ nstep n x := by
  set s := Nat.sqrt n with hs
  have hss : s * s ≤ n := Nat.sqrt_le n
  rw [nstep]
  obtain ⟨q, hq⟩ : ∃ q, n / x = q := ⟨_, rfl⟩
  rw [hq]
  by_cases hcs : 2 * s ≤ x
  · omega
  · push_neg at hcs
    have hxle : x ≤ 2 * s := by omega
    have h1 : (2 * s - x) * x ≤ s * s := by
      zify [hxle]
      nlinarith [sq_nonneg ((s : ℤ) - (x : ℤ))]
    have h2 : 2 * s - x ≤ q := by
      rw [← hq, Nat.le_div_iff_mul_le hx]
      omega
    omega

/-- Above the integer square root, a Newton step strictly decreases. -/
theorem nstep_lt (n x : ℕ) (hx : Nat.sqrt n < x) : nstep n x < x := by
  have hx1 : 1 ≤ x := by omega
  have hn : n < x * x := Nat.sqrt_lt.mp hx
  have hq : n / x < x := (Nat.div_lt_iff_lt_mul hx1).mpr hn
  rw [nstep]
  omega

/-- When `n + 1` is not a perfect square, the integer square root is a fixed
point of the Newton step (this is exactly the case `n = s^2 + 2s`, i.e.
`n + 1 = (s+1)^2`, in which the loop would oscillate between `s` and `s+1`). -/
theorem nstep_sqrt_eq (n : ℕ) (hn : 1 ≤ n) (hsq : ¬ IsSquare (n + 1)) :
    nstep n (Nat.sqrt n) = Nat.sqrt n := by
  set s := Nat.sqrt n with hs
  have hs1 : 1 ≤ s := Nat.sqrt_pos.mpr (by omega)
  have h1 : s * s ≤ n := Nat.sqrt_le n
  have h2 : n < (s + 1) * (s + 1) := Nat.lt_succ_sqrt n
  have hne : n ≠ s * s + 2 * s := by
    intro h
    exact hsq ⟨s + 1, by nlinarith⟩
  have hq1 : s ≤ n / s := by
    rw [Nat.le_div_iff_mul_le hs1]
    omega
  have hq2 : n / s < s + 2 := by
    rw [Nat.div_lt_iff_lt_mul hs1]
    have ha : (s + 2) * s = s * s + 2 * s := by ring
    have hb : (s + 1) * (s + 1) = s * s + 2 * s + 1 := by ring
    omega
  rw [nstep]
  obtain ⟨q, hq⟩ : ∃ q, n / s = q := ⟨_, rfl⟩
  rw [hq] at hq1 hq2 ⊢
  omega

/-- `newtonIter` is monotone in the fuel. -/
theorem newtonIter_mono (n : ℕ) :
    ∀ fuel x r, newtonIter n fuel x = some r →
      ∀ fuel', fuel ≤ fuel' → newtonIter n fuel' x = some r := by
  intro fuel
  induction fuel with
  | zero =>
    intro x r h
    simp [newtonIter] at h
  | succ fuel ih =>
    intro x r h fuel' hle
    obtain ⟨fuel'', rfl⟩ : ∃ j, fuel' = j + 1 := ⟨fuel' - 1, by omega⟩
    rw [newtonIter] at h ⊢
    by_cases hc : (nstep n x == x) = true
    · rw [if_pos hc] at h ⊢
      exact h
    · rw [if_neg hc] at h ⊢
      exact ih (nstep n x) r h fuel'' (by omega)

/-- Descent: starting at or above the integer square root, the loop
terminates (when `n + 1` is not a perfect square). -/
theorem newtonIter_descend (n : ℕ) (hn : 1 ≤ n) (hsq : ¬ IsSquare (n + 1)) :
    ∀ x, Nat.sqrt n ≤ x → ∃ r, newtonIter n (x + 1 - Nat.sqrt n) x = some r := by
  intro x
  induction x using Nat.strong_induction_on with
  | _ x ih =>
    intro hx
    have hfuel : x + 1 - Nat.sqrt n = (x - Nat.sqrt n) + 1 := by omega
    by_cases hc : nstep n x = x
    · refine ⟨x, ?_⟩
      rw [hfuel, newtonIter]
      simp [hc]
    · have hxgt : Nat.sqrt n < x := by
        rcases Nat.lt_or_ge (Nat.sqrt n) x with h | h
        · exact h
        · have hxeq : x = Nat.sqrt n := by omega
          rw [hxeq] at hc
          exact absurd (nstep_sqrt_eq n hn hsq) hc
      have hlt := nstep_lt n x hxgt
      have hge := sqrt_le_nstep n x (by omega)
      obtain ⟨r, hr⟩ := ih (nstep n x) hlt hge
      refine ⟨r, ?_⟩
      rw [hfuel, newtonIter]
      rw [if_neg (by simpa using hc)]
      exact newtonIter_mono n _ _ r hr (x - Nat.sqrt n) (by omega)

/-- Full termination of the Newton loop from any positive seed, provided
`original + 1` is not a perfect square. -/
theorem newtonIter_terminates (n : ℕ) (hn : 1 ≤ n) (x : ℕ) (hx : 1 ≤ x)
    (hsq : ¬ IsSquare (n + 1)) : ∃ fuel r, newtonIter n fuel x = some r := by
  by_cases hc : nstep n x = x
  · refine ⟨1, x, ?_⟩
    rw [newtonIter]
    simp [hc]
  · have hge := sqrt_le_nstep n x hx
    obtain ⟨r, hr⟩ := newtonIter_descend n hn hsq (nstep n x) hge
    refine ⟨(nstep n x + 1 - Nat.sqrt n) + 1, r, ?_⟩
    rw [newtonIter]
    rw [if_neg (by simpa using hc)]
    exact hr



set_option exponentiation.threshold 100000
set_option maxRecDepth 10000

/-- Any `t` with `t^2 ≡ 1 (mod 10^k)` lies in one of four residue classes
modulo `L = 2^(k-1) * 5^k`; when none of those classes meets the window
`A ≤ t^2 ≤ B`, no perfect square `t^2 = n + 1` with `10^k ∣ n` fits the
window. -/
theorem not_square_window (k L rP A B : ℕ) (hk : 2 ≤ k)
    (hL : L = 2 ^ (k - 1) * 5 ^ k) (hA : 2 ≤ A)
    (hrP1 : 1 ≤ rP) (hrP2 : rP < L)
    (hrPa : 2 ^ (k - 1) ∣ rP - 1) (hrPb : 5 ^ k ∣ rP + 1)
    (chkP : rP * rP < A ∨ B < rP * rP)
    (chkM : (L - rP) * (L - rP) < A ∨ B < (L - rP) * (L - rP))
    (chkL1 : B < (L - 1) * (L - 1))
    (t n : ℕ) (hn : n + 1 = t * t) (hA2 : A ≤ n + 1) (hB : n + 1 ≤ B)
    (hdvd : 10 ^ k ∣ n) : False := by
  have hcop : Nat.Coprime (2 ^ (k - 1)) (5 ^ k) :=
    Nat.Coprime.pow (k - 1) k (by norm_num)
  have ht1 : 1 ≤ t := by
    rcases t with _ | t
    · omega
    · omega
  -- the big-membership contradiction, shared by all classes
  have hbig : ¬ (L - 1 ≤ t) := by
    intro hge
    have : (L - 1) * (L - 1) ≤ t * t := Nat.mul_le_mul hge hge
    omega
  have h2k10 : (2 : ℕ) ^ k ∣ 10 ^ k := by
    rw [show (10 : ℕ) = 2 * 5 from rfl, mul_pow]
    exact dvd_mul_right _ _
  have h5k10 : (5 : ℕ) ^ k ∣ 10 ^ k := by
    rw [show (10 : ℕ) = 2 * 5 from rfl, mul_pow]
    exact dvd_mul_left _ _
  have hfact : (t - 1) * (t + 1) = n := by
    have hnz : (n : ℤ) + 1 = (t : ℤ) * (t : ℤ) := by exact_mod_cast hn
    zify [ht1]
    nlinarith [hnz]
  have hodd : t % 2 = 1 := by
    by_contra h
    have h0 : (2 : ℕ) ∣ t := by omega
    have h2n : (2 : ℕ) ∣ n := dvd_trans (dvd_pow (by norm_num) (by omega)) hdvd
    have h2tt : (2 : ℕ) ∣ t * t := h0.mul_right t
    omega
  -- 5-adic part: 5^k divides t - 1 or t + 1
  have h5prod : (5 : ℕ) ^ k ∣ (t - 1) * (t + 1) := by
    rw [hfact]
    exact dvd_trans h5k10 hdvd
  have hnot55 : ¬ ((5 : ℕ) ∣ t - 1 ∧ (5 : ℕ) ∣ t + 1) := by
    rintro ⟨ha, hb⟩
    have := Nat.dvd_sub' hb ha
    rw [show t + 1 - (t - 1) = 2 by omega] at this
    omega
  have h5 : (5 : ℕ) ^ k ∣ t - 1 ∨ (5 : ℕ) ^ k ∣ t + 1 := by
    by_cases hd5 : (5 : ℕ) ∣ t - 1
    · left
      have hnd : ¬ (5 : ℕ) ∣ t + 1 := fun hb => hnot55 ⟨hd5, hb⟩
      have hcop5 : Nat.Coprime (5 ^ k) (t + 1) :=
        Nat.Coprime.pow_left k ((Nat.prime_five.coprime_iff_not_dvd).mpr hnd)
      exact hcop5.dvd_of_dvd_mul_right h5prod
    · right
      have hcop5 : Nat.Coprime (5 ^ k) (t - 1) :=
        Nat.Coprime.pow_left k ((Nat.prime_five.coprime_iff_not_dvd).mpr hd5)
      exact hcop5.dvd_of_dvd_mul_left h5prod
  -- 2-adic part: 2^(k-1) divides t - 1 or t + 1
  have h2prod : (2 : ℕ) ^ k ∣ (t - 1) * (t + 1) := by
    rw [hfact]
    exact dvd_trans h2k10 hdvd
  obtain ⟨u, hu⟩ : ∃ u, t = 2 * u + 1 := ⟨t / 2, by omega⟩
  have hprod4 : (t - 1) * (t + 1) = 4 * (u * (u + 1)) := by
    subst hu
    rw [show 2 * u + 1 - 1 = 2 * u by omega]
    ring
  have h2u : (2 : ℕ) ^ (k - 2) ∣ u * (u + 1) := by
    have hk4 : (2 : ℕ) ^ k = 4 * 2 ^ (k - 2) := by
      rw [show (4 : ℕ) = 2 ^ 2 from rfl, ← pow_add]
      congr 1
      omega
    have := h2prod
    rw [hprod4, hk4] at this
    exact (Nat.mul_dvd_mul_iff_left (by norm_num : (0 : ℕ) < 4)).mp this
  have h2 : (2 : ℕ) ^ (k - 1) ∣ t - 1 ∨ (2 : ℕ) ^ (k - 1) ∣ t + 1 := by
    have hsplit : (2 : ℕ) ^ (k - 1) = 2 * 2 ^ (k - 2) := by
      rw [← pow_succ']
      congr 1
      omega
    by_cases hdu : (2 : ℕ) ∣ u
    · left
      have hnd : ¬ (2 : ℕ) ∣ u + 1 := by omega
      have hcop2 : Nat.Coprime (2 ^ (k - 2)) (u + 1) :=
        Nat.Coprime.pow_left _ ((Nat.prime_two.coprime_iff_not_dvd).mpr hnd)
      have hdvu : (2 : ℕ) ^ (k - 2) ∣ u := hcop2.dvd_of_dvd_mul_right h2u
      rw [hsplit, show t - 1 = 2 * u by omega]
      exact Nat.mul_dvd_mul_left 2 hdvu
    · right
      have hcop2 : Nat.Coprime (2 ^ (k - 2)) u :=
        Nat.Coprime.pow_left _ ((Nat.prime_two.coprime_iff_not_dvd).mpr hdu)
      have hdvu : (2 : ℕ) ^ (k - 2) ∣ u + 1 := hcop2.dvd_of_dvd_mul_left h2u
      rw [hsplit, show t + 1 = 2 * (u + 1) by omega]
      exact Nat.mul_dvd_mul_left 2 hdvu
  -- now combine the four cases
  have hL2 : (2 : ℕ) ^ (k - 1) ∣ L := hL ▸ dvd_mul_right _ _
  have hL5 : (5 : ℕ) ^ k ∣ L := hL ▸ dvd_mul_left _ _
  have hL1 : 1 ≤ L := by omega
  have hdm := Nat.div_add_mod t L
  rcases h2 with h2 | h2 <;> rcases h5 with h5 | h5
  · -- t ≡ 1 (mod L)
    have hdL : L ∣ t - 1 := hL ▸ hcop.mul_dvd_of_dvd_of_dvd h2 h5
    obtain ⟨q, hq⟩ := hdL
    rcases Nat.eq_zero_or_pos q with hq0 | hq0
    · -- t = 1, so n = 0, contradicting 2 ≤ A ≤ n + 1
      rw [hq0, Nat.mul_zero] at hq
      have ht : t = 1 := by omega
      rw [ht] at hn
      omega
    · have hge : L * 1 ≤ L * q := Nat.mul_le_mul_left L hq0
      exact hbig (by omega)
  · -- t ≡ rP (mod L): 2-adically +1, 5-adically -1
    have m2 : t ≡ rP [MOD 2 ^ (k - 1)] := by
      have ha : (1 : ℕ) ≡ t [MOD 2 ^ (k - 1)] := (Nat.modEq_iff_dvd' ht1).mpr h2
      have hb : (1 : ℕ) ≡ rP [MOD 2 ^ (k - 1)] := (Nat.modEq_iff_dvd' hrP1).mpr hrPa
      exact ha.symm.trans hb
    have m5 : t ≡ rP [MOD 5 ^ k] := by
      have ha : (t + 1) ≡ 0 [MOD 5 ^ k] := (Nat.modEq_zero_iff_dvd).mpr h5
      have hb : (rP + 1) ≡ 0 [MOD 5 ^ k] := (Nat.modEq_zero_iff_dvd).mpr hrPb
      exact Nat.ModEq.add_right_cancel' 1 (ha.trans hb.symm)
    have ml : t ≡ rP [MOD L] := by
      have := (Nat.modEq_and_modEq_iff_modEq_mul hcop).mp ⟨m2, m5⟩
      rwa [← hL] at this
    have htm : t % L = rP := by
      have h' : t % L = rP % L := ml
      rwa [Nat.mod_eq_of_lt hrP2] at h'
    rcases Nat.eq_zero_or_pos (t / L) with hq0 | hq0
    · rw [hq0, Nat.mul_zero, htm] at hdm
      have ht : t = rP := by omega
      rw [ht] at hn
      rcases chkP with hc | hc <;> omega
    · have hge : L * 1 ≤ L * (t / L) := Nat.mul_le_mul_left L hq0
      exact hbig (by omega)
  · -- t ≡ L - rP (mod L): 2-adically -1, 5-adically +1
    have hrM1 : 1 ≤ L - rP := by omega
    have hrMa : 2 ^ (k - 1) ∣ (L - rP) + 1 := by
      rw [show (L - rP) + 1 = L - (rP - 1) by omega]
      exact Nat.dvd_sub' hL2 hrPa
    have hrMb : 5 ^ k ∣ (L - rP) - 1 := by
      rw [show (L - rP) - 1 = L - (rP + 1) by omega]
      exact Nat.dvd_sub' hL5 hrPb
    have m2 : t ≡ (L - rP) [MOD 2 ^ (k - 1)] := by
      have ha : (t + 1) ≡ 0 [MOD 2 ^ (k - 1)] := (Nat.modEq_zero_iff_dvd).mpr h2
      have hb : ((L - rP) + 1) ≡ 0 [MOD 2 ^ (k - 1)] := (Nat.modEq_zero_iff_dvd).mpr hrMa
      exact Nat.ModEq.add_right_cancel' 1 (ha.trans hb.symm)
    have m5 : t ≡ (L - rP) [MOD 5 ^ k] := by
      have ha : (1 : ℕ) ≡ t [MOD 5 ^ k] := (Nat.modEq_iff_dvd' ht1).mpr h5
      have hb : (1 : ℕ) ≡ (L - rP) [MOD 5 ^ k] := (Nat.modEq_iff_dvd' hrM1).mpr hrMb
      exact ha.symm.trans hb
    have ml : t ≡ (L - rP) [MOD L] := by
      have := (Nat.modEq_and_modEq_iff_modEq_mul hcop).mp ⟨m2, m5⟩
      rwa [← hL] at this
    have htm : t % L = L - rP := by
      have h' : t % L = (L - rP) % L := ml
      rwa [Nat.mod_eq_of_lt (show L - rP < L by omega)] at h'
    rcases Nat.eq_zero_or_pos (t / L) with hq0 | hq0
    · rw [hq0, Nat.mul_zero, htm] at hdm
      have ht : t = L - rP := by omega
      rw [ht] at hn
      rcases chkM with hc | hc <;> omega
    · have hge : L * 1 ≤ L * (t / L) := Nat.mul_le_mul_left L hq0
      exact hbig (by omega)
  · -- t ≡ L - 1 (mod L)
    have hdL : L ∣ t + 1 := hL ▸ hcop.mul_dvd_of_dvd_of_dvd h2 h5
    obtain ⟨q, hq⟩ := hdL
    have hq0 : 1 ≤ q := by
      rcases Nat.eq_zero_or_pos q with h0 | h0
      · rw [h0, Nat.mul_zero] at hq
        omega
      · exact h0
    have hge : L * 1 ≤ L * q := Nat.mul_le_mul_left L hq0
    exact hbig (by omega)


set_option exponentiation.threshold 100000
set_option maxRecDepth 10000

/-- Instantiation of the window argument: for `M` in the canonical mantissa
range of a `D`-digit format, `M * 10^k + 1` is not a perfect square. -/
theorem fmt_no_square (D k rP : ℕ) (hk : 2 ≤ k)
    (hrP1 : 1 ≤ rP) (hrP2 : rP < 2 ^ (k - 1) * 5 ^ k)
    (hrPa : 2 ^ (k - 1) ∣ rP - 1) (hrPb : 5 ^ k ∣ rP + 1)
    (chkP : rP * rP < 10 ^ (D - 1 + k) + 1 ∨ (10 ^ D - 1) * 10 ^ k + 1 < rP * rP)
    (chkM : (2 ^ (k - 1) * 5 ^ k - rP) * (2 ^ (k - 1) * 5 ^ k - rP) < 10 ^ (D - 1 + k) + 1 ∨
      (10 ^ D - 1) * 10 ^ k + 1 < (2 ^ (k - 1) * 5 ^ k - rP) * (2 ^ (k - 1) * 5 ^ k - rP))
    (chkL1 : (10 ^ D - 1) * 10 ^ k + 1 <
      (2 ^ (k - 1) * 5 ^ k - 1) * (2 ^ (k - 1) * 5 ^ k - 1))
    (M : ℕ) (hlo : 10 ^ (D - 1) ≤ M) (hhi : M ≤ 10 ^ D - 1) :
    ¬ IsSquare (M * 10 ^ k + 1) := by
  rintro ⟨t, ht⟩
  have hA2 : 10 ^ (D - 1 + k) + 1 ≤ M * 10 ^ k + 1 := by
    have : (10 : ℕ) ^ (D - 1) * 10 ^ k ≤ M * 10 ^ k := Nat.mul_le_mul_right _ hlo
    rw [← pow_add] at this
    omega
  have hB : M * 10 ^ k + 1 ≤ (10 ^ D - 1) * 10 ^ k + 1 := by
    have : M * 10 ^ k ≤ (10 ^ D - 1) * 10 ^ k := Nat.mul_le_mul_right _ hhi
    omega
  have hA : 2 ≤ 10 ^ (D - 1 + k) + 1 := by
    have : (1 : ℕ) ≤ 10 ^ (D - 1 + k) := Nat.one_le_pow _ _ (by norm_num)
    omega
  exact not_square_window k (2 ^ (k - 1) * 5 ^ k) rP (10 ^ (D - 1 + k) + 1)
    ((10 ^ D - 1) * 10 ^ k + 1) hk rfl hA hrP1 hrP2 hrPa hrPb chkP chkM chkL1
    t (M * 10 ^ k) (by rw [ht]) hA2 hB (Dvd.intro_left M rfl)

/-- No canonical `3`-digit mantissa `M` makes `M * 10^6 + 1` a perfect
square (residue classes of square roots of 1 modulo `10^6` miss the window). -/
theorem no_square_3_6 (M : ℕ) (hlo : 10 ^ 2 ≤ M) (hhi : M ≤ 10 ^ 3 - 1) :
    ¬ IsSquare (M * 10 ^ 6 + 1) :=
  fmt_no_square 3 6
    281249
    (by norm_num) (by norm_num) (by decide) (by decide) (by decide)
    (by decide) (by decide) (by decide) M hlo hhi

/-- No canonical `3`-digit mantissa `M` makes `M * 10^7 + 1` a perfect
square (residue classes of square roots of 1 modulo `10^7` miss the window). -/
theorem no_square_3_7 (M : ℕ) (hlo : 10 ^ 2 ≤ M) (hhi : M ≤ 10 ^ 3 - 1) :
    ¬ IsSquare (M * 10 ^ 7 + 1) :=
  fmt_no_square 3 7
    781249
    (by norm_num) (by norm_num) (by decide) (by decide) (by decide)
    (by decide) (by decide) (by decide) M hlo hhi

/-- No canonical `7`-digit mantissa `M` makes `M * 10^10 + 1` a perfect
square (residue classes of square roots of 1 modulo `10^10` miss the window). -/
theorem no_square_7_10 (M : ℕ) (hlo : 10 ^ 6 ≤ M) (hhi : M ≤ 10 ^ 7 - 1) :
    ¬ IsSquare (M * 10 ^ 10 + 1) :=
  fmt_no_square 7 10
    1425781249
    (by norm_num) (by norm_num) (by decide) (by decide) (by decide)
    (by decide) (by decide) (by decide) M hlo hhi

/-- No canonical `7`-digit mantissa `M` makes `M * 10^11 + 1` a perfect
square (residue classes of square roots of 1 modulo `10^11` miss the window). -/
theorem no_square_7_11 (M : ℕ) (hlo : 10 ^ 6 ≤ M) (hhi : M ≤ 10 ^ 7 - 1) :
    ¬ IsSquare (M * 10 ^ 11 + 1) :=
  fmt_no_square 7 11
    36425781249
    (by norm_num) (by norm_num) (by decide) (by decide) (by decide)
    (by decide) (by decide) (by decide) M hlo hhi

/-- No canonical `16`-digit mantissa `M` makes `M * 10^19 + 1` a perfect
square (residue classes of square roots of 1 modulo `10^19` miss the window). -/
theorem no_square_16_19 (M : ℕ) (hlo : 10 ^ 15 ≤ M) (hhi : M ≤ 10 ^ 16 - 1) :
    ¬ IsSquare (M * 10 ^ 19 + 1) :=
  fmt_no_square 16 19
    4512519836425781249
    (by norm_num) (by norm_num) (by decide) (by decide) (by decide)
    (by decide) (by decide) (by decide) M hlo hhi

/-- No canonical `16`-digit mantissa `M` makes `M * 10^20 + 1` a perfect
square (residue classes of square roots of 1 modulo `10^20` miss the window). -/
theorem no_square_16_20 (M : ℕ) (hlo : 10 ^ 15 ≤ M) (hhi : M ≤ 10 ^ 16 - 1) :
    ¬ IsSquare (M * 10 ^ 20 + 1) :=
  fmt_no_square 16 20
    34512519836425781249
    (by norm_num) (by norm_num) (by decide) (by decide) (by decide)
    (by decide) (by decide) (by decide) M hlo hhi

/-- No canonical `34`-digit mantissa `M` makes `M * 10^37 + 1` a perfect
square (residue classes of square roots of 1 modulo `10^37` miss the window). -/
theorem no_square_34_37 (M : ℕ) (hlo : 10 ^ 33 ≤ M) (hhi : M ≤ 10 ^ 34 - 1) :
    ¬ IsSquare (M * 10 ^ 37 + 1) :=
  fmt_no_square 34 37
    2218008213239954784512519836425781249
    (by norm_num) (by norm_num) (by decide) (by decide) (by decide)
    (by decide) (by decide) (by decide) M hlo hhi

/-- No canonical `34`-digit mantissa `M` makes `M * 10^38 + 1` a perfect
square (residue classes of square roots of 1 modulo `10^38` miss the window). -/
theorem no_square_34_38 (M : ℕ) (hlo : 10 ^ 33 ≤ M) (hhi : M ≤ 10 ^ 34 - 1) :
    ¬ IsSquare (M * 10 ^ 38 + 1) :=
  fmt_no_square 34 38
    42218008213239954784512519836425781249
    (by norm_num) (by norm_num) (by decide) (by decide) (by decide)
    (by decide) (by decide) (by decide) M hlo hhi

/-- No canonical `1000`-digit mantissa `M` makes `M * 10^1003 + 1` a perfect
square (residue classes of square roots of 1 modulo `10^1003` miss the window). -/
theorem no_square_1000_1003 (M : ℕ) (hlo : 10 ^ 999 ≤ M) (hhi : M ≤ 10 ^ 1000 - 1) :
    ¬ IsSquare (M * 10 ^ 1003 + 1) :=
  fmt_no_square 1000 1003
    4262556250800267380172069778168728047751531873643959252363835667040985408398649750475651734296557810689794880285224634071399096838998889221216292414508073119996543176712070098655591081483923698561904187506053704781875125678297143224734703941218448484797554015149911574543119534826917995075391031725437775883032615139337632704310097796543408757016056868168825288253643697028315459832068994035784671593369982894779132003865091655356001236659708852465654515112221466321394031729968444582510971459758674295732646344811031512204705087989998691216167602381483060120112111489637419385570199551836100150832857055416324022700493612116326552343353530521875056113688428972387920999668945613443813340834480188468932395624853381575071889233397016129272274332768098058438683763819163319048955723692281825756596876863406496346857773145475326293038209976058895921629347521007914393787429343602751238110925993629528527807906014638216339605877019780124333019161727622001114846846461792218008213239954784512519836425781249
    (by norm_num) (by norm_num) (by decide) (by decide) (by decide)
    (by decide) (by decide) (by decide) M hlo hhi

/-- No canonical `1000`-digit mantissa `M` makes `M * 10^1004 + 1` a perfect
square (residue classes of square roots of 1 modulo `10^1004` miss the window). -/
theorem no_square_1000_1004 (M : ℕ) (hlo : 10 ^ 999 ≤ M) (hhi : M ≤ 10 ^ 1000 - 1) :
    ¬ IsSquare (M * 10 ^ 1004 + 1) :=
  fmt_no_square 1000 1004
    34262556250800267380172069778168728047751531873643959252363835667040985408398649750475651734296557810689794880285224634071399096838998889221216292414508073119996543176712070098655591081483923698561904187506053704781875125678297143224734703941218448484797554015149911574543119534826917995075391031725437775883032615139337632704310097796543408757016056868168825288253643697028315459832068994035784671593369982894779132003865091655356001236659708852465654515112221466321394031729968444582510971459758674295732646344811031512204705087989998691216167602381483060120112111489637419385570199551836100150832857055416324022700493612116326552343353530521875056113688428972387920999668945613443813340834480188468932395624853381575071889233397016129272274332768098058438683763819163319048955723692281825756596876863406496346857773145475326293038209976058895921629347521007914393787429343602751238110925993629528527807906014638216339605877019780124333019161727622001114846846461792218008213239954784512519836425781249
    (by norm_num) (by norm_num) (by decide) (by decide) (by decide)
    (by decide) (by decide) (by decide) M hlo hhi



set_option exponentiation.threshold 100000
set_option maxRecDepth 10000

/-- Termination of the `sqrt` Newton loop for one format, given the
no-perfect-square facts for its two radicand shapes. -/
theorem sqrt_term_core (f : Floating) (D : ℕ) (hD : f.DIGITS = D) (hD1 : 1 ≤ D)
    (hmin : f.MANTISSA_MIN = 10 ^ (D - 1)) (hmax : f.MANTISSA_MAX = 10 ^ D - 1)
    (hsqE : ∀ M : ℕ, 10 ^ (D - 1) ≤ M → M ≤ 10 ^ D - 1 → ¬ IsSquare (M * 10 ^ (D + 3) + 1))
    (hsqO : ∀ M : ℕ, 10 ^ (D - 1) ≤ M → M ≤ 10 ^ D - 1 → ¬ IsSquare (M * 10 ^ (D + 4) + 1))
    (num : Num) (hnum : f.isNumber num = true) (hpos : 0 < num.mantissa) :
    ∃ fuel r, newtonIter (f.sqrtOriginal num) fuel (f.sqrtSeed num) = some r := by
  simp only [Floating.isNumber, Bool.or_eq_true, Bool.and_eq_true, beq_iff_eq,
    decide_eq_true_eq] at hnum
  rcases hnum with ⟨_, hz⟩ | ⟨⟨⟨hm1, hm2⟩, _⟩, _⟩
  · omega
  · set M := num.mantissa.toNat with hM
    have hcast : (M : ℤ) = num.mantissa := Int.toNat_of_nonneg (le_of_lt hpos)
    have habs : num.mantissa.natAbs = M := by
      rw [← hcast, Int.natAbs_ofNat]
    rw [habs, hmin] at hm1
    rw [habs, hmax] at hm2
    have hpow1 : (1 : ℕ) ≤ 10 ^ (D - 1) := Nat.one_le_pow _ _ (by norm_num)
    have hM1 : 1 ≤ M := by omega
    by_cases hpar : (num.exponent % 2 == 0) = true
    · -- even exponent: radicand M * 10^(D+3)
      have horig : f.sqrtOriginal num = M * 10 ^ (D + 3) := by
        rw [Floating.sqrtOriginal, if_pos hpar, hD, P, show D + 2 * 2 - 1 = D + 3 by omega]
      have hseed : f.sqrtSeed num = M * 28 + 89 * 10 ^ (D - 1) := by
        rw [Floating.sqrtSeed, if_pos hpar, hD, P, P]
        simp
      rw [horig, hseed]
      refine newtonIter_terminates _ ?_ _ ?_ (hsqE M hm1 hm2)
      · have : (1 : ℕ) ≤ 10 ^ (D + 3) := Nat.one_le_pow _ _ (by norm_num)
        exact Nat.one_le_iff_ne_zero.mpr (by positivity)
      · omega
    · -- odd exponent: radicand M * 10^(D+4)
      have horig : f.sqrtOriginal num = M * 10 ^ (D + 4) := by
        rw [Floating.sqrtOriginal, if_neg hpar, hD, P, show D + 2 * 2 = D + 4 by omega]
      have hseed : f.sqrtSeed num = M * 89 + 28 * 10 ^ D := by
        rw [Floating.sqrtSeed, if_neg hpar, hD, P, P]
        simp
      rw [horig, hseed]
      refine newtonIter_terminates _ ?_ _ ?_ (hsqO M hm1 hm2)
      · have : (1 : ℕ) ≤ 10 ^ (D + 4) := Nat.one_le_pow _ _ (by norm_num)
        exact Nat.one_le_iff_ne_zero.mpr (by positivity)
      · have : (1 : ℕ) ≤ 10 ^ D := Nat.one_le_pow _ _ (by norm_num)
        omega

/-- The `sqrt` Newton loop terminates for every canonical positive input of
every shipped format. -/
theorem sqrt_loop_terminates (f : Floating) (hf : f ∈ fmts) (num : Num)
    (hnum : f.isNumber num = true) (hpos : 0 < num.mantissa) :
    ∃ fuel r, newtonIter (f.sqrtOriginal num) fuel (f.sqrtSeed num) = some r := by
  fin_cases hf
  · exact sqrt_term_core _ 3 rfl (by norm_num) (by decide) (by decide)
      no_square_3_6 no_square_3_7 num hnum hpos
  · exact sqrt_term_core _ 7 rfl (by norm_num) (by decide) (by decide)
      no_square_7_10 no_square_7_11 num hnum hpos
  · exact sqrt_term_core _ 16 rfl (by norm_num) (by decide) (by decide)
      no_square_16_19 no_square_16_20 num hnum hpos
  · exact sqrt_term_core _ 34 rfl (by norm_num) (by decide) (by decide)
      no_square_34_37 no_square_34_38 num hnum hpos
  · exact sqrt_term_core _ 16 rfl (by norm_num) (by decide) (by decide)
      no_square_16_19 no_square_16_20 num hnum hpos
  · exact sqrt_term_core _ 1000 rfl (by norm_num) (by decide) (by decide)
      no_square_1000_1003 no_square_1000_1004 num hnum hpos


set_option exponentiation.threshold 100000
set_option maxRecDepth 10000

/-- A bitwise-or of disjoint fields is an addition: the mantissa occupies the
low `B` bits and the shifted exponent the high bits. -/
theorem lor_shiftLeft_eq_add (m t B : ℕ) (hm : m < 2 ^ B) :
    m ||| (t <<< B) = t * 2 ^ B + m :=
  calc m ||| (t <<< B) = (2 ^ B * t) ||| m := by
        rw [Nat.shiftLeft_eq, Nat.lor_comm, mul_comm]
  _ = 2 ^ B * t + m := (Nat.mul_add_lt_is_or hm t).symm
  _ = t * 2 ^ B + m := by ring

/-- XOR with an all-ones mask is complementation. -/
theorem xor_mask_eq (A W : ℕ) (h : A < 2 ^ W) :
    A ^^^ (2 ^ W - 1) = 2 ^ W - (A + 1) := by
  apply Nat.eq_of_testBit_eq
  intro i
  rw [Nat.testBit_xor, Nat.testBit_two_pow_sub_one, Nat.testBit_two_pow_sub_succ h]
  by_cases hi : i < W
  · simp [hi]
  · have hA : A < 2 ^ i := lt_of_lt_of_le h (Nat.pow_le_pow_right (by norm_num) (by omega))
    simp [hi, Nat.testBit_lt_two_pow hA]

/-- The encoding of the cached `undefined` value: `-(2^W - 2)` where `W` is
the full field width. -/
theorem compact_undefined_eq (f : Floating)
    (hMask : f.MASK = 2 ^ (f.MANTISSA_BITS + f.EXPONENT_BITS + 2) - 1) :
    f._compact f.undefined =
      -((2 ^ (f.MANTISSA_BITS + f.EXPONENT_BITS + 2) - 2 : ℕ) : ℤ) := by
  have h1 : (2 : ℕ) ≤ 2 ^ (f.MANTISSA_BITS + f.EXPONENT_BITS + 2) := by
    calc (2 : ℕ) = 2 ^ 1 := rfl
    _ ≤ _ := Nat.pow_le_pow_right (by norm_num) (by omega)
  rw [Floating._compact]
  rw [if_pos (show (f.undefined).mantissa < 0 by norm_num [Floating.undefined])]
  have e1 : (f.undefined).mantissa.natAbs = 1 := by simp [Floating.undefined]
  have e2 : ((f.undefined).exponent - f.SPECIAL).toNat = 0 := by simp [Floating.undefined]
  rw [e1, e2, Nat.zero_shiftLeft, show (1 ||| 0 : ℕ) = 1 from rfl, hMask,
    xor_mask_eq 1 _ (by omega)]

/-- The order encoder places `undefined` strictly below every canonical value
(zero, positive finite, and negative finite alike). -/
theorem compact_undefined_lt (f : Floating)
    (hB : f.MANTISSA_MAX < 2 ^ f.MANTISSA_BITS)
    (hMask : f.MASK = 2 ^ (f.MANTISSA_BITS + f.EXPONENT_BITS + 2) - 1)
    (hEB : 2 * f.EXPONENT_MAX.toNat + 1 < 2 ^ (f.EXPONENT_BITS + 2))
    (hS : f.SPECIAL = f.EXPONENT_MIN - 1)
    (hEminmax : f.EXPONENT_MIN = -f.EXPONENT_MAX)
    (hE1 : 1 ≤ f.EXPONENT_MAX) (hm1 : 1 ≤ f.MANTISSA_MIN)
    (x : Num) (hx : f.isNumber x = true) :
    f._compact f.undefined < f._compact x := by
  have hcu := compact_undefined_eq f hMask
  have h4 : (4 : ℕ) ≤ 2 ^ (f.MANTISSA_BITS + f.EXPONENT_BITS + 2) := by
    calc (4 : ℕ) = 2 ^ 2 := rfl
    _ ≤ _ := Nat.pow_le_pow_right (by norm_num) (by omega)
  simp only [Floating.isNumber, Bool.or_eq_true, Bool.and_eq_true, beq_iff_eq,
    decide_eq_true_eq] at hx
  rcases hx with ⟨hze, hzm⟩ | ⟨⟨⟨ha1, ha2⟩, he1⟩, he2⟩
  · -- the cached zero
    have hcx : f._compact x = 0 := by
      rw [Floating._compact, if_neg (by rw [hzm]; norm_num)]
      rw [hzm, hze]
      simp
    rw [hcu, hcx]
    omega
  · -- finite canonical values
    have htpos : 1 ≤ (x.exponent - f.SPECIAL).toNat := by
      rw [hS]
      omega
    have htle : (x.exponent - f.SPECIAL).toNat ≤ 2 * f.EXPONENT_MAX.toNat + 1 := by
      rw [hS, hEminmax]
      omega
    have haB : x.mantissa.natAbs < 2 ^ f.MANTISSA_BITS := by omega
    have hA := lor_shiftLeft_eq_add x.mantissa.natAbs
      ((x.exponent - f.SPECIAL).toNat) f.MANTISSA_BITS haB
    have htQ : (x.exponent - f.SPECIAL).toNat ≤ 2 ^ (f.EXPONENT_BITS + 2) - 1 := by omega
    have h3 : (1 : ℕ) ≤ 2 ^ f.MANTISSA_BITS := Nat.one_le_pow _ _ (by norm_num)
    have hApow : (x.exponent - f.SPECIAL).toNat * 2 ^ f.MANTISSA_BITS + x.mantissa.natAbs ≤
        2 ^ (f.MANTISSA_BITS + f.EXPONENT_BITS + 2) - 1 := by
      have h1 : (x.exponent - f.SPECIAL).toNat * 2 ^ f.MANTISSA_BITS ≤
          (2 ^ (f.EXPONENT_BITS + 2) - 1) * 2 ^ f.MANTISSA_BITS :=
        Nat.mul_le_mul_right _ htQ
      have h2 : (2 ^ (f.EXPONENT_BITS + 2) - 1) * 2 ^ f.MANTISSA_BITS =
          2 ^ (f.MANTISSA_BITS + f.EXPONENT_BITS + 2) - 2 ^ f.MANTISSA_BITS := by
        rw [Nat.sub_mul, one_mul, ← pow_add]
        congr 2
        omega
      have h1' : (x.exponent - f.SPECIAL).toNat * 2 ^ f.MANTISSA_BITS ≤
          2 ^ (f.MANTISSA_BITS + f.EXPONENT_BITS + 2) - 2 ^ f.MANTISSA_BITS := h2 ▸ h1
      have hPBW : (2 : ℕ) ^ f.MANTISSA_BITS ≤
          2 ^ (f.MANTISSA_BITS + f.EXPONENT_BITS + 2) :=
        Nat.pow_le_pow_right (by norm_num) (by omega)
      omega
    have hA2 : 2 ≤ (x.exponent - f.SPECIAL).toNat * 2 ^ f.MANTISSA_BITS + x.mantissa.natAbs := by
      have h5 : 1 * 2 ^ f.MANTISSA_BITS ≤
          (x.exponent - f.SPECIAL).toNat * 2 ^ f.MANTISSA_BITS :=
        Nat.mul_le_mul_right _ htpos
      omega
    by_cases hneg : x.mantissa < 0
    · have hcx : f._compact x =
          -((2 ^ (f.MANTISSA_BITS + f.EXPONENT_BITS + 2) -
            ((x.exponent - f.SPECIAL).toNat * 2 ^ f.MANTISSA_BITS + x.mantissa.natAbs + 1) : ℕ) : ℤ) := by
        rw [Floating._compact, if_pos hneg, hA, hMask, xor_mask_eq _ _ (by omega)]
      rw [hcu, hcx]
      omega
    · have hcx : f._compact x =
          (((x.exponent - f.SPECIAL).toNat * 2 ^ f.MANTISSA_BITS + x.mantissa.natAbs : ℕ) : ℤ) := by
        rw [Floating._compact, if_neg hneg, hA]
      rw [hcu, hcx]
      omega

/-- Bundle of order-encoder constants for the six shipped formats. -/
theorem fmt_facts_order (f : Floating) (hf : f ∈ fmts) :
    f.MANTISSA_MAX < 2 ^ f.MANTISSA_BITS ∧
    f.MASK = 2 ^ (f.MANTISSA_BITS + f.EXPONENT_BITS + 2) - 1 ∧
    2 * f.EXPONENT_MAX.toNat + 1 < 2 ^ (f.EXPONENT_BITS + 2) ∧
    f.SPECIAL = f.EXPONENT_MIN - 1 ∧
    f.EXPONENT_MIN = -f.EXPONENT_MAX ∧
    1 ≤ f.EXPONENT_MAX ∧ 1 ≤ f.MANTISSA_MIN := by
  fin_cases hf
  · exact ⟨by decide, by decide, by decide, by decide, by decide, by decide, by decide⟩
  · exact ⟨by decide, by decide, by decide, by decide, by decide, by decide, by decide⟩
  · exact ⟨by decide, by decide, by decide, by decide, by decide, by decide, by decide⟩
  · exact ⟨by decide, by decide, by decide, by decide, by decide, by decide, by decide⟩
  · exact ⟨by decide, by decide, by decide, by decide, by decide, by decide, by decide⟩
  · exact ⟨by decide, by decide, by decide, by decide, by decide, by decide, by decide⟩


set_option exponentiation.threshold 100000
set_option maxRecDepth 10000

/-- C1: any invalid or undefined operand short-circuits every one of the five
arithmetic operations to the cached `undefined` value, and no exception is
raised (the result is `some`, never `none`). -/
theorem C1_invalid_operands_give_undefined (f : Floating) (x y : Num)
    (h : f.isInvalid x = true ∨ f.isInvalid y = true) :
    f.add x y = some f.undefined ∧ f.sub x y = some f.undefined ∧
    f.mul x y = some f.undefined ∧ f.div x y = some f.undefined ∧
    f.mod x y = some f.undefined := by
  rcases h with h | h <;>
    exact ⟨by simp [Floating.add, h], by simp [Floating.sub, h],
      by simp [Floating.mul, h], by simp [Floating.div, h], by simp [Floating.mod, h]⟩

/-- Concrete instance of the C1 theorem: `Num(5, 0)` is invalid in `Fd16`
(its mantissa has fewer than `DIGITS` digits), and all five operations on it
return `undefined`. -/
theorem C1_invalid_operands_give_undefined_witness :
    Fd16.isInvalid ⟨5, 0⟩ = true ∧
    (Fd16.add ⟨5, 0⟩ Fd16.zero = some Fd16.undefined ∧
     Fd16.sub ⟨5, 0⟩ Fd16.zero = some Fd16.undefined ∧
     Fd16.mul ⟨5, 0⟩ Fd16.zero = some Fd16.undefined ∧
     Fd16.div ⟨5, 0⟩ Fd16.zero = some Fd16.undefined ∧
     Fd16.mod ⟨5, 0⟩ Fd16.zero = some Fd16.undefined) :=
  ⟨by decide,
   C1_invalid_operands_give_undefined Fd16 ⟨5, 0⟩ Fd16.zero (Or.inl (by decide))⟩

/-- C2 (counterexample): `pack` is not total over all integer mantissas.  For
a mantissa of bit length 9966 the digit estimate `r` reaches 3000 and the
table access `P[r]` in `_log10` raises `IndexError`, so `pack` raises instead
of returning a canonical value. -/
theorem C2_pack_table_overflow :
    Fd16.pack ((2 ^ 9966 : ℕ) : ℤ) 0 3 = none := by decide

/-- C2 (amended): for every mantissa whose magnitude stays below `2 ^ 9965`
(so that the digit estimator's table access is in range), `pack` normalizes to
a pair `(M, E)` and canonicalizes it exactly as specified: zero when the
rounded mantissa is 0, `undefined` on exponent overflow, zero on exponent
underflow (flush-to-zero), and otherwise a finite canonical `Num` satisfying
the mantissa and exponent invariants. -/
theorem C2_pack_canonicalizes (f : Floating) (hf : f ∈ fmts) (m e x : ℤ)
    (hm : m.natAbs < 2 ^ 9965) :
    ∃ M E : ℤ, f.packNorm m e x = some (M, E) ∧
      (M = 0 → f.pack m e x = some f.zero) ∧
      (M ≠ 0 → f.EXPONENT_MAX < E → f.pack m e x = some f.undefined) ∧
      (M ≠ 0 → E ≤ f.EXPONENT_MAX → E < f.EXPONENT_MIN → f.pack m e x = some f.zero) ∧
      (M ≠ 0 → f.EXPONENT_MIN ≤ E → E ≤ f.EXPONENT_MAX →
        f.pack m e x = some ⟨M, E⟩ ∧ f.isNumber ⟨M, E⟩ = true ∧
        f.MANTISSA_MIN ≤ M.natAbs ∧ M.natAbs ≤ f.MANTISSA_MAX) := by
  obtain ⟨hmax, hmin, hd, hd2⟩ := fmt_facts f hf
  obtain ⟨M, E, hN, hz, hb⟩ := packNorm_spec f hmax hmin hd m e x hm
  have hpack : f.pack m e x = some (f.canonicalize M E) := by
    rw [Floating.pack, hN, Option.map_some']
  have hM0 : M ≠ 0 → m ≠ 0 := fun hM hm0 => hM (hz hm0)
  refine ⟨M, E, hN, ?_, ?_, ?_, ?_⟩
  · intro h0
    rw [hpack, Floating.canonicalize, if_pos h0]
  · intro hM hE
    rw [hpack, Floating.canonicalize, if_neg hM, if_pos hE]
  · intro hM hE1 hE2
    rw [hpack, Floating.canonicalize, if_neg hM, if_neg (not_lt.mpr hE1), if_pos hE2]
  · intro hM hE1 hE2
    obtain ⟨hb1, hb2⟩ := hb (hM0 hM)
    refine ⟨?_, ?_, hb1, hb2⟩
    · rw [hpack, Floating.canonicalize, if_neg hM, if_neg (not_lt.mpr hE2),
        if_neg (not_lt.mpr hE1)]
    · simp only [Floating.isNumber, Bool.or_eq_true, Bool.and_eq_true, beq_iff_eq,
        decide_eq_true_eq]
      right
      exact ⟨⟨⟨hb1, hb2⟩, hE1⟩, hE2⟩

/-- Concrete instance of the C2 theorem at `Fd16` with mantissa 12345,
exponent 0 and expected digit count 5. -/
theorem C2_pack_canonicalizes_witness :
    Fd16 ∈ fmts ∧ (12345 : ℤ).natAbs < 2 ^ 9965 ∧
    (∃ M E : ℤ, Fd16.packNorm 12345 0 5 = some (M, E) ∧
      (M = 0 → Fd16.pack 12345 0 5 = some Fd16.zero) ∧
      (M ≠ 0 → Fd16.EXPONENT_MAX < E → Fd16.pack 12345 0 5 = some Fd16.undefined) ∧
      (M ≠ 0 → E ≤ Fd16.EXPONENT_MAX → E < Fd16.EXPONENT_MIN →
        Fd16.pack 12345 0 5 = some Fd16.zero) ∧
      (M ≠ 0 → Fd16.EXPONENT_MIN ≤ E → E ≤ Fd16.EXPONENT_MAX →
        Fd16.pack 12345 0 5 = some ⟨M, E⟩ ∧ Fd16.isNumber ⟨M, E⟩ = true ∧
        Fd16.MANTISSA_MIN ≤ M.natAbs ∧ M.natAbs ≤ Fd16.MANTISSA_MAX)) :=
  ⟨by decide, by decide, C2_pack_canonicalizes Fd16 (by decide) 12345 0 5 (by decide)⟩

/-- C3: at every power-of-ten boundary covered by the table, the digit-count
estimator is exact: `_log10 (10 ^ i) = i + 1` and `_log10 (10 ^ i - 1) = i`
for all `i < 3000 = 3 * MAX_DIGITS`. -/
theorem C3_estimator_boundaries (i : ℕ) (h : i < 3000) :
    _log10 ((10 : ℤ) ^ i) = some (i + 1) ∧ _log10 ((10 : ℤ) ^ i - 1) = some i := by
  have hc := ballChk_sound estChk 20 0 3000 estChk_all i h
  rw [Nat.zero_add] at hc
  simp only [estChk, Bool.and_eq_true, beq_iff_eq] at hc
  have h1 : (1 : ℕ) ≤ P i := Nat.one_le_pow _ _ (by norm_num)
  have hcast : ((10 : ℤ) ^ i) = ((P i : ℕ) : ℤ) := by
    rw [P]
    push_cast
    ring
  have hcast2 : ((10 : ℤ) ^ i) - 1 = ((P i - 1 : ℕ) : ℤ) := by
    rw [Nat.cast_sub h1, hcast]
    norm_num
  constructor
  · rw [_log10, hcast, Int.natAbs_ofNat]
    exact hc.1
  · rw [_log10, hcast2, Int.natAbs_ofNat]
    exact hc.2

/-- Concrete instance of the C3 theorem at `i = 5`. -/
theorem C3_estimator_boundaries_witness :
    5 < 3000 ∧
    (_log10 ((10 : ℤ) ^ 5) = some (5 + 1) ∧ _log10 ((10 : ℤ) ^ 5 - 1) = some 5) :=
  ⟨by norm_num, C3_estimator_boundaries 5 (by norm_num)⟩

/-- C4: the order encoder reverses the order of negative numbers.  In `Fd16`,
`Num(-200, 0)` and `Num(-100, 0)` are both finite canonical values with
numeric values `-200 < -100`, yet `lt` answers `false` and `gt` answers
`true` (and `eq` answers `false`, so the trichotomy picks the wrong side):
`_compact` both complements the magnitude with XOR and negates the result,
flipping negative values twice. -/
theorem C4_negative_order_reversed :
    Fd16.isFinite ⟨-200, 0⟩ = true ∧ Fd16.isFinite ⟨-100, 0⟩ = true ∧
    numValue ⟨-200, 0⟩ < numValue ⟨-100, 0⟩ ∧
    Fd16.lt ⟨-200, 0⟩ ⟨-100, 0⟩ = false ∧
    Fd16.eq ⟨-200, 0⟩ ⟨-100, 0⟩ = false ∧
    Fd16.gt ⟨-200, 0⟩ ⟨-100, 0⟩ = true := by
  refine ⟨by decide, by decide, ?_, by decide, by decide, by decide⟩
  norm_num [numValue]

/-- C5 (counterexample): the round-trip fails for target exponents strictly
inside the claimed window.  `Num(123, 0)` is finite canonical in `Fd16` and
`e = 1` lies in `[0, 0 + DIGITS]`, but `unpack` at exponent 1 takes the
true-division branch, returns a Python float, and `pack` then raises
`AttributeError` (`none`) instead of reproducing the number. -/
theorem C5_roundtrip_window_fails :
    Fd16.isFinite ⟨123, 0⟩ = true ∧
    (0 : ℤ) ≤ 1 ∧ (1 : ℤ) ≤ 0 + (Fd16.DIGITS : ℤ) ∧
    (Fd16.unpack ⟨123, 0⟩ 1).bind
      (fun v => Fd16.packVal v 1 (Fd16.DIGITS : ℤ)) = none := by
  exact ⟨by decide, by decide, by decide, by decide⟩

/-- C5 (amended): the round-trip `pack(unpack(n, e), e, DIGITS) = n` holds for
every finite canonical `n` of a shipped format at the single window point
`e = n.exponent` (where `unpack` stays on the integer branch with `P[0] = 1`).
For every `e > n.exponent` in the claimed window, `unpack` divides with `/`
and the round trip raises instead. -/
theorem C5_roundtrip_at_own_exponent (f : Floating) (hf : f ∈ fmts) (n : Num)
    (hfin : f.isFinite n = true) :
    (f.unpack n n.exponent).bind
      (fun v => f.packVal v n.exponent (f.DIGITS : ℤ)) = some n := by
  obtain ⟨hmax, hmin, hd, hd2⟩ := fmt_facts f hf
  exact roundTrip_self f hmax hmin hd hd2 n hfin

/-- Concrete instance of the C5 theorem: `Num(123, 0)` in `Fd16` survives the
round trip at its own exponent. -/
theorem C5_roundtrip_at_own_exponent_witness :
    Fd16 ∈ fmts ∧ Fd16.isFinite ⟨123, 0⟩ = true ∧
    (Fd16.unpack ⟨123, 0⟩ (0 : ℤ)).bind
      (fun v => Fd16.packVal v (0 : ℤ) (Fd16.DIGITS : ℤ)) = some ⟨123, 0⟩ :=
  ⟨by decide, by decide, C5_roundtrip_at_own_exponent Fd16 (by decide) ⟨123, 0⟩ (by decide)⟩

/-- C6: on the negative-index branch `unpack` does not return the claimed
integer quotient: it uses Python true division `/`, producing a fractional
float.  `unpack(Num(150, 0), 2)` returns the float `1.5` (here the exact
rational 3/2), not the integer `150 // 100 = 1`; feeding that float back to
`pack` raises `AttributeError` (`none`). -/
theorem C6_unpack_true_division :
    Fd16.unpack ⟨150, 0⟩ 2 = some (PyVal.vfloat (3 / 2 : ℚ)) ∧
    Fd16.unpack ⟨150, 0⟩ 2 ≠ some (PyVal.vint 1) ∧
    Fd16.packVal (PyVal.vfloat (3 / 2 : ℚ)) 2 3 = none := by
  have h1 : Fd16.unpack ⟨150, 0⟩ 2 = some (PyVal.vfloat (3 / 2 : ℚ)) := by
    rw [Floating.unpack]
    norm_num [show Fd16.DIGITS = 3 from rfl, show Int.toNat 2 = 2 from rfl]
  exact ⟨h1, by rw [h1]; simp, rfl⟩

/-- C7 (counterexample): `eq` compares the `(mantissa, exponent)` pair
directly, so the cached `undefined` of `Fd16` compares equal to itself and
`ne` answers `false` — not the NaN-like behaviour the specification claims. -/
theorem C7_undefined_self_compare_cex :
    Fd16.eq Fd16.undefined Fd16.undefined = true ∧
    Fd16.ne Fd16.undefined Fd16.undefined = false := by decide

/-- C7 (amended): for every format, `undefined` is equal to itself under `eq`
and not unequal under `ne`: equality is plain pair comparison with no
NaN-style special case. -/
theorem C7_undefined_self_compare (f : Floating) :
    f.eq f.undefined f.undefined = true ∧ f.ne f.undefined f.undefined = false := by
  constructor <;> simp [Floating.eq, Floating.ne]

/-- C8: the additive identity fails outright.  `Num(100, 0)` is finite
canonical in `Fd16`, yet `add(Num(100, 0), zero)` raises (returns `none`)
instead of returning `Num(100, 0)`: `unpack` of the cached zero takes the
true-division branch (zero's stored exponent `SPECIAL` is minimal), produces
a float, and `pack` then fails on it. -/
theorem C8_add_zero_crashes :
    Fd16.isFinite ⟨100, 0⟩ = true ∧
    Fd16.add ⟨100, 0⟩ Fd16.zero = none := by
  exact ⟨by decide, by decide⟩

/-- C9: for every canonical number with positive mantissa in a shipped
format, the Newton-Raphson loop of `sqrt` terminates: some finite fuel makes
the iteration reach a fixed point `NEXT == result` and return. -/
theorem C9_sqrt_newton_terminates (f : Floating) (hf : f ∈ fmts) (num : Num)
    (hnum : f.isNumber num = true) (hpos : 0 < num.mantissa) :
    ∃ fuel r, newtonIter (f.sqrtOriginal num) fuel (f.sqrtSeed num) = some r :=
  sqrt_loop_terminates f hf num hnum hpos

/-- Concrete instance of the C9 theorem: the loop for `sqrt(Num(100, 0))` in
`Fd16` terminates. -/
theorem C9_sqrt_newton_terminates_witness :
    Fd16 ∈ fmts ∧ Fd16.isNumber ⟨100, 0⟩ = true ∧ (0 : ℤ) < 100 ∧
    ∃ fuel r, newtonIter (Fd16.sqrtOriginal ⟨100, 0⟩) fuel
      (Fd16.sqrtSeed ⟨100, 0⟩) = some r :=
  ⟨by decide, by decide, by decide,
   C9_sqrt_newton_terminates Fd16 (by decide) ⟨100, 0⟩ (by decide) (by decide)⟩

/-- C10: for every canonical value `x` (zero or finite) of a shipped format,
the order encoder places `undefined` strictly below `x`: `lt(undefined, x)`
is `true` and `lt(x, undefined)` is `false`. -/
theorem C10_undefined_below_all (f : Floating) (hf : f ∈ fmts) (x : Num)
    (hx : f.isNumber x = true) :
    f.lt f.undefined x = true ∧ f.lt x f.undefined = false := by
  obtain ⟨h1, h2, h3, h4, h5, h6, h7⟩ := fmt_facts_order f hf
  have hlt := compact_undefined_lt f h1 h2 h3 h4 h5 h6 h7 x hx
  constructor
  · simp only [Floating.lt, decide_eq_true_eq]
    exact hlt
  · simp only [Floating.lt, decide_eq_false_iff_not]
    omega

/-- Concrete instance of the C10 theorem at `Fd16` with `x` the cached zero. -/
theorem C10_undefined_below_all_witness :
    Fd16 ∈ fmts ∧ Fd16.isNumber Fd16.zero = true ∧
    (Fd16.lt Fd16.undefined Fd16.zero = true ∧
     Fd16.lt Fd16.zero Fd16.undefined = false) :=
  ⟨by decide, by decide,
   C10_undefined_below_all Fd16 (by decide) Fd16.zero (by decide)⟩

end DevNum
